import Mathlib

/-!
Verification of the ransomware Monte Carlo loss-simulation scripts.

The development shallowly embeds the three Python scripts:
  - src/Ransomeware_baseline_montecarlo_calc.py  (run_simulation, baseline preset)
  - src/Ransomeware_mitigation_montecarlo_calc.py (same run_simulation, two presets)
  - src/Ransomeware8.py (run_fair_simulation, rosi, plot_lec)

Modelling choices:
  - Python floats are modelled by ℚ (the scripts use only +, -, *, / and
    comparisons on finitely many drawn values).
  - The global numpy random stream is modelled by an explicit draw function.
    Each trial consumes a fixed tuple of draws, so a run takes
    u : ℕ → ℕ → ℚ where u i j is the j-th draw of trial i; np.random.random()
    yields a value in [0,1), and np.random.uniform(lo, hi) is
    lo + u * (hi - lo) for a fresh u in [0,1) (numpy's own definition).
  - np.sort (ascending sort of the loss array) is modelled with
    List.insertionSort (· ≤ ·), a structurally recursive sort producing the
    same sorted list.
  - np.mean of a NONEMPTY array is sum / length; on an empty array numpy
    returns NaN, modelled as the Option value none.
  - The number of trials NUM_SIMULATIONS is a global constant 10000 in the
    scripts; the simulation functions here take the trial count as an
    explicit argument n, and the constant is kept alongside.
-/

/-- Closed interval given as a two-element Python list [lo, hi]. -/
structure Range where
  lo : ℚ
  hi : ℚ
deriving DecidableEq

/-- Invariant demanded by the spec for every configured range:
non-negative bounds and min ≤ max. -/
def Range.valid (r : Range) : Prop := 0 ≤ r.lo ∧ r.lo ≤ r.hi

instance (r : Range) : Decidable r.valid :=
  inferInstanceAs (Decidable (0 ≤ r.lo ∧ r.lo ≤ r.hi))

/-- Model of np.random.uniform(r.lo, r.hi) where u is the underlying
np.random.random() draw in [0,1): numpy computes lo + u * (hi - lo). -/
def uniform (r : Range) (u : ℚ) : ℚ := r.lo + u * (r.hi - r.lo)

/-- Trial count, NUM_SIMULATIONS = 10000 in all three scripts. -/
def NUM_SIMULATIONS : ℕ := 10000

/-- Ransomeware_baseline_montecarlo_calc.py: PROB_ATTACK = 0.67. -/
def PROB_ATTACK : ℚ := 67/100

/-- Ransomeware_baseline_montecarlo_calc.py: DAYS_DOWN_BASELINE = [21, 90]. -/
def DAYS_DOWN_BASELINE : Range := ⟨21, 90⟩

/-- Ransomeware_mitigation_montecarlo_calc.py: DAYS_DOWN_MITIGATED = [3, 45]. -/
def DAYS_DOWN_MITIGATED : Range := ⟨3, 45⟩

/-- Baseline/mitigation scripts: DAILY_IMPACT_RANGE = [8.0, 12.0]. -/
def DAILY_IMPACT_RANGE : Range := ⟨8, 12⟩

/-- Ransomeware8.py: INVESTMENT_COST = 15.0. -/
def INVESTMENT_COST : ℚ := 15

/-- Ransomeware8.py: PROB_ATTACK_BASELINE = 0.67. -/
def PROB_ATTACK_BASELINE : ℚ := 67/100

/-- Ransomeware8.py: PROB_ATTACK_MITIGATED = 0.15. -/
def PROB_ATTACK_MITIGATED : ℚ := 15/100

/-- Ransomeware8.py: DAYS_DOWN_BASELINE = [15, 120]. -/
def DAYS_DOWN_BASELINE_8 : Range := ⟨15, 120⟩

/-- Ransomeware8.py: DAYS_DOWN_MITIGATED = [2, 14]. -/
def DAYS_DOWN_MITIGATED_8 : Range := ⟨2, 14⟩

/-- Ransomeware8.py: DAILY_LOSS_RANGE = [30.0, 95.0]. -/
def DAILY_LOSS_RANGE : Range := ⟨30, 95⟩

/-- Ransomeware8.py: RESPONSE_COST_RANGE = [25.0, 85.0]. -/
def RESPONSE_COST_RANGE : Range := ⟨25, 85⟩

/-- Ransomeware8.py: SECONDARY_LOSS_RANGE = [50.0, 650.0]. -/
def SECONDARY_LOSS_RANGE : Range := ⟨50, 650⟩

/-- One loop iteration of run_simulation (baseline/mitigation scripts,
lines 30-42): if np.random.random() > prob_attack the trial records 0;
otherwise it records days * daily_loss with days drawn from days_range and
daily_loss drawn from DAILY_IMPACT_RANGE. u j is the j-th random draw of
the trial. -/
def sim_trial (prob_attack : ℚ) (days_range : Range) (u : ℕ → ℚ) : ℚ :=
  if prob_attack < u 0 then 0
  else uniform days_range (u 1) * uniform DAILY_IMPACT_RANGE (u 2)

/-- run_simulation(prob_attack, days_range) of the baseline/mitigation
scripts, with the trial count n explicit (NUM_SIMULATIONS in the source)
and the random stream u explicit (u i is the draw tuple of trial i). -/
def run_simulation (prob_attack : ℚ) (days_range : Range) (n : ℕ)
    (u : ℕ → ℕ → ℚ) : List ℚ :=
  (List.range n).map fun i => sim_trial prob_attack days_range (u i)

/-- One loop iteration of run_fair_simulation (Ransomeware8.py, lines
51-66): zero when np.random.random() > prob_attack, otherwise
days * daily_cost + response_loss + secondary_loss with each component
uniform over its configured range. -/
def fair_trial (prob_attack : ℚ) (days_range : Range) (u : ℕ → ℚ) : ℚ :=
  if prob_attack < u 0 then 0
  else
    uniform days_range (u 1) * uniform DAILY_LOSS_RANGE (u 2)
      + uniform RESPONSE_COST_RANGE (u 3) + uniform SECONDARY_LOSS_RANGE (u 4)

/-- run_fair_simulation(prob_attack, days_range, label) of Ransomeware8.py
(the label argument only annotates plots and is dropped), with explicit
trial count and random stream. -/
def run_fair_simulation (prob_attack : ℚ) (days_range : Range) (n : ℕ)
    (u : ℕ → ℕ → ℚ) : List ℚ :=
  (List.range n).map fun i => fair_trial prob_attack days_range (u i)

/-- Impact-only subsequence: losses[losses > 0] in the scripts (e.g.
impact_baseline = losses_baseline[losses_baseline > 0]). -/
def impactOnly (losses : List ℚ) : List ℚ :=
  losses.filter fun x => decide (0 < x)

/-- Arithmetic mean, the value np.mean returns on a nonempty array. -/
def mean (l : List ℚ) : ℚ := l.sum / l.length

/-- Model of np.mean including the empty case: numpy returns NaN (with a
runtime warning) for an empty array, modelled as none; otherwise the
arithmetic mean. -/
def npMean (l : List ℚ) : Option ℚ :=
  if l.length = 0 then none else some (mean l)

/-- Ransomeware8.py line 77: roi_reduction = ale_baseline - ale_mitigated. -/
def roi_reduction (ale_baseline ale_mitigated : ℚ) : ℚ :=
  ale_baseline - ale_mitigated

/-- Ransomeware8.py line 78:
rosi = ((roi_reduction - INVESTMENT_COST) / INVESTMENT_COST) * 100. -/
def rosi (reduction : ℚ) : ℚ :=
  ((reduction - INVESTMENT_COST) / INVESTMENT_COST) * 100

/-- Points of the loss exceedance curve produced by plot_lec
(Ransomeware8.py lines 122-128): sort the losses ascending, keep the
strictly positive ones, return early (no points) when none remain,
otherwise plot the i-th positive loss against
(number of positives - i) / len(losses). The x and y arrays handed to
plt.plot are modelled as the list of (x, y) pairs. -/
def plot_lec (losses : List ℚ) : List (ℚ × ℚ) :=
  let sorted_losses := List.insertionSort (· ≤ ·) losses
  let sorted_losses_non_zero := sorted_losses.filter fun x => decide (0 < x)
  if sorted_losses_non_zero.length = 0 then []
  else
    (List.range sorted_losses_non_zero.length).map fun i =>
      (sorted_losses_non_zero.getD i 0,
        ((sorted_losses_non_zero.length - i : ℕ) : ℚ) / (losses.length : ℚ))

/-- Valid-range fact for the baseline/mitigation daily-impact constant. -/
theorem DAILY_IMPACT_RANGE_valid : DAILY_IMPACT_RANGE.valid := by
  constructor <;> norm_num [DAILY_IMPACT_RANGE]

/-- Valid-range fact for the Ransomeware8 daily-loss constant. -/
theorem DAILY_LOSS_RANGE_valid : DAILY_LOSS_RANGE.valid := by
  constructor <;> norm_num [DAILY_LOSS_RANGE]

/-- Valid-range fact for the Ransomeware8 response-cost constant. -/
theorem RESPONSE_COST_RANGE_valid : RESPONSE_COST_RANGE.valid := by
  constructor <;> norm_num [RESPONSE_COST_RANGE]

/-- Valid-range fact for the Ransomeware8 secondary-loss constant. -/
theorem SECONDARY_LOSS_RANGE_valid : SECONDARY_LOSS_RANGE.valid := by
  constructor <;> norm_num [SECONDARY_LOSS_RANGE]

/-- Draw from a valid range stays at or above the lower bound. -/
theorem uniform_lo_le (r : Range) (u : ℚ) (hv : r.valid) (hu : 0 ≤ u) :
    r.lo ≤ uniform r u := by
  unfold uniform
  nlinarith [hv.1, hv.2]

/-- Draw from a valid range stays at or below the upper bound when u ≤ 1. -/
theorem uniform_le_hi (r : Range) (u : ℚ) (hv : r.valid) (hu : u ≤ 1) :
    uniform r u ≤ r.hi := by
  unfold uniform
  nlinarith [hv.1, hv.2]

/-- Draw from a valid range is non-negative. -/
theorem uniform_nonneg (r : Range) (u : ℚ) (hv : r.valid) (hu : 0 ≤ u) :
    0 ≤ uniform r u :=
  le_trans hv.1 (uniform_lo_le r u hv hu)

/-- Reading entry i of a length-n map over List.range. -/
theorem getD_map_range (f : ℕ → ℚ) {n i : ℕ} (h : i < n) (d : ℚ) :
    ((List.range n).map f).getD i d = f i := by
  have hlen : i < ((List.range n).map f).length := by simpa using h
  rw [List.getD_eq_getElem _ _ hlen]
  simp

/-- Membership in a simulation run is membership in some trial. -/
theorem mem_map_range {α : Type} (f : ℕ → α) (n : ℕ) (x : α) :
    x ∈ (List.range n).map f ↔ ∃ i, i < n ∧ f i = x := by
  simp [List.mem_map, List.mem_range]

/-- Every trial value of run_simulation is non-negative under a valid
configuration and draws in [0,1). -/
theorem sim_trial_nonneg (p : ℚ) (dr : Range) (u : ℕ → ℚ)
    (hdr : dr.valid) (hu : ∀ j, 0 ≤ u j) : 0 ≤ sim_trial p dr u := by
  unfold sim_trial
  split
  · exact le_refl 0
  · exact mul_nonneg (uniform_nonneg dr (u 1) hdr (hu 1))
      (uniform_nonneg DAILY_IMPACT_RANGE (u 2) DAILY_IMPACT_RANGE_valid (hu 2))

/-- Every trial value of run_fair_simulation is non-negative under a valid
configuration and draws in [0,1). -/
theorem fair_trial_nonneg (p : ℚ) (dr : Range) (u : ℕ → ℚ)
    (hdr : dr.valid) (hu : ∀ j, 0 ≤ u j) : 0 ≤ fair_trial p dr u := by
  unfold fair_trial
  split
  · exact le_refl 0
  · have h1 := mul_nonneg (uniform_nonneg dr (u 1) hdr (hu 1))
      (uniform_nonneg DAILY_LOSS_RANGE (u 2) DAILY_LOSS_RANGE_valid (hu 2))
    have h2 := uniform_nonneg RESPONSE_COST_RANGE (u 3) RESPONSE_COST_RANGE_valid (hu 3)
    have h3 := uniform_nonneg SECONDARY_LOSS_RANGE (u 4) SECONDARY_LOSS_RANGE_valid (hu 4)
    linarith

/-- When the attack branch is taken, a run_simulation trial is strictly
positive provided the downtime range has a strictly positive minimum. -/
theorem sim_trial_pos (p : ℚ) (dr : Range) (u : ℕ → ℚ)
    (hdr : dr.valid) (hlo : 0 < dr.lo) (hu : ∀ j, 0 ≤ u j)
    (hatt : ¬ p < u 0) : 0 < sim_trial p dr u := by
  unfold sim_trial
  rw [if_neg hatt]
  have hd : 0 < uniform dr (u 1) := lt_of_lt_of_le hlo (uniform_lo_le dr (u 1) hdr (hu 1))
  have hc : 0 < uniform DAILY_IMPACT_RANGE (u 2) := by
    have h8 : (0:ℚ) < DAILY_IMPACT_RANGE.lo := by norm_num [DAILY_IMPACT_RANGE]
    exact lt_of_lt_of_le h8
      (uniform_lo_le DAILY_IMPACT_RANGE (u 2) DAILY_IMPACT_RANGE_valid (hu 2))
  exact mul_pos hd hc

/-- When the attack branch is taken, a run_fair_simulation trial is
strictly positive (the response-cost term alone is at least 25). -/
theorem fair_trial_pos (p : ℚ) (dr : Range) (u : ℕ → ℚ)
    (hdr : dr.valid) (hu : ∀ j, 0 ≤ u j)
    (hatt : ¬ p < u 0) : 0 < fair_trial p dr u := by
  unfold fair_trial
  rw [if_neg hatt]
  have h1 := mul_nonneg (uniform_nonneg dr (u 1) hdr (hu 1))
    (uniform_nonneg DAILY_LOSS_RANGE (u 2) DAILY_LOSS_RANGE_valid (hu 2))
  have h2 : (25:ℚ) ≤ uniform RESPONSE_COST_RANGE (u 3) := by
    have := uniform_lo_le RESPONSE_COST_RANGE (u 3) RESPONSE_COST_RANGE_valid (hu 3)
    simpa [RESPONSE_COST_RANGE] using this
  have h3 := uniform_nonneg SECONDARY_LOSS_RANGE (u 4) SECONDARY_LOSS_RANGE_valid (hu 4)
  linarith

/-- C1: for every valid configuration (p in [0,1], valid days range) and
trial count n > 0, both run_simulation and run_fair_simulation return a
sample of exactly n elements, each non-negative, for every sequence of
random draws in [0,1). -/
theorem sample_length_and_nonneg (p : ℚ) (dr : Range) (n : ℕ) (u : ℕ → ℕ → ℚ)
    (_hp : 0 ≤ p ∧ p ≤ 1) (hdr : dr.valid) (_hn : 0 < n)
    (hu : ∀ a b, 0 ≤ u a b ∧ u a b < 1) :
    ((run_simulation p dr n u).length = n ∧
      ∀ x ∈ run_simulation p dr n u, 0 ≤ x) ∧
    ((run_fair_simulation p dr n u).length = n ∧
      ∀ x ∈ run_fair_simulation p dr n u, 0 ≤ x) := by
  refine ⟨⟨by simp [run_simulation], ?_⟩, ⟨by simp [run_fair_simulation], ?_⟩⟩
  · intro x hx
    rcases (mem_map_range _ n x).mp hx with ⟨i, _, hfx⟩
    exact hfx ▸ sim_trial_nonneg p dr (u i) hdr (fun j => (hu i j).1)
  · intro x hx
    rcases (mem_map_range _ n x).mp hx with ⟨i, _, hfx⟩
    exact hfx ▸ fair_trial_nonneg p dr (u i) hdr (fun j => (hu i j).1)

/-- Witness for C1 at the baseline preset with two trials and all draws 0. -/
theorem sample_length_and_nonneg_witness :
    (0 ≤ PROB_ATTACK ∧ PROB_ATTACK ≤ 1) ∧ DAYS_DOWN_BASELINE.valid ∧ 0 < 2 ∧
    ((run_simulation PROB_ATTACK DAYS_DOWN_BASELINE 2 (fun _ _ => 0)).length = 2 ∧
      ∀ x ∈ run_simulation PROB_ATTACK DAYS_DOWN_BASELINE 2 (fun _ _ => 0), 0 ≤ x) ∧
    ((run_fair_simulation PROB_ATTACK DAYS_DOWN_BASELINE 2 (fun _ _ => 0)).length = 2 ∧
      ∀ x ∈ run_fair_simulation PROB_ATTACK DAYS_DOWN_BASELINE 2 (fun _ _ => 0), 0 ≤ x) := by
  have h := sample_length_and_nonneg PROB_ATTACK DAYS_DOWN_BASELINE 2 (fun _ _ => 0)
    ⟨by norm_num [PROB_ATTACK], by norm_num [PROB_ATTACK]⟩
    (by constructor <;> norm_num [DAYS_DOWN_BASELINE]) (by norm_num)
    (fun a b => ⟨le_refl 0, by norm_num⟩)
  exact ⟨⟨by norm_num [PROB_ATTACK], by norm_num [PROB_ATTACK]⟩,
    by constructor <;> norm_num [DAYS_DOWN_BASELINE], by norm_num, h.1, h.2⟩

/-- C2 counterexample: with the valid range [0, 5] for downtime days,
p = 1 and all draws 0, the frequency draw u = 0 does not exceed p (the
attack occurs), yet the recorded loss is exactly 0, refuting both
directions of the claim as stated (loss 0 only on the no-attack branch,
and strictly positive loss whenever the attack occurs). -/
theorem attack_with_zero_loss :
    Range.valid ⟨0, 5⟩ ∧ ¬ ((1:ℚ) < 0) ∧
    (run_simulation 1 ⟨0, 5⟩ 1 (fun _ _ => 0)).getD 0 0 = 0 := by
  refine ⟨⟨by norm_num, by norm_num⟩, by norm_num, ?_⟩
  norm_num [run_simulation, sim_trial, uniform, List.range_succ]

/-- C2 (amended): when the downtime range additionally has a strictly
positive minimum (true of every preset in the repository), a recorded
loss is 0 exactly when that trial's frequency draw u exceeds p, and on
the attack branch the loss is strictly positive; run_fair_simulation
satisfies the same with no extra condition beyond validity needed in
principle (its response-cost minimum 25 is positive). -/
theorem loss_zero_iff_no_attack (p : ℚ) (dr : Range) (n : ℕ) (u : ℕ → ℕ → ℚ) (i : ℕ)
    (hdr : dr.valid) (hlo : 0 < dr.lo) (hu : ∀ a b, 0 ≤ u a b ∧ u a b < 1)
    (hi : i < n) :
    ((run_simulation p dr n u).getD i 0 = 0 ↔ p < u i 0) ∧
    ((run_fair_simulation p dr n u).getD i 0 = 0 ↔ p < u i 0) ∧
    (¬ p < u i 0 →
      0 < (run_simulation p dr n u).getD i 0 ∧
      0 < (run_fair_simulation p dr n u).getD i 0) := by
  have hs : (run_simulation p dr n u).getD i 0 = sim_trial p dr (u i) :=
    getD_map_range _ hi 0
  have hf : (run_fair_simulation p dr n u).getD i 0 = fair_trial p dr (u i) :=
    getD_map_range _ hi 0
  have hspos : ¬ p < u i 0 → 0 < sim_trial p dr (u i) :=
    fun hatt => sim_trial_pos p dr (u i) hdr hlo (fun j => (hu i j).1) hatt
  have hfpos : ¬ p < u i 0 → 0 < fair_trial p dr (u i) :=
    fun hatt => fair_trial_pos p dr (u i) hdr (fun j => (hu i j).1) hatt
  refine ⟨?_, ?_, fun hatt => ⟨hs ▸ hspos hatt, hf ▸ hfpos hatt⟩⟩
  · rw [hs]
    constructor
    · intro h0
      by_contra hatt
      exact absurd h0 (ne_of_gt (hspos hatt))
    · intro hgt
      unfold sim_trial
      rw [if_pos hgt]
  · rw [hf]
    constructor
    · intro h0
      by_contra hatt
      exact absurd h0 (ne_of_gt (hfpos hatt))
    · intro hgt
      unfold fair_trial
      rw [if_pos hgt]

/-- Witness for the amended C2 at the baseline preset, one trial, all
draws equal to 1/2 (the attack branch, since 0.67 is not below 0.5). -/
theorem loss_zero_iff_no_attack_witness :
    DAYS_DOWN_BASELINE.valid ∧ 0 < DAYS_DOWN_BASELINE.lo ∧ (0:ℕ) < 1 ∧
    ((run_simulation PROB_ATTACK DAYS_DOWN_BASELINE 1 (fun _ _ => 1/2)).getD 0 0 = 0 ↔
      PROB_ATTACK < 1/2) := by
  have h := loss_zero_iff_no_attack PROB_ATTACK DAYS_DOWN_BASELINE 1 (fun _ _ => 1/2) 0
    (by constructor <;> norm_num [DAYS_DOWN_BASELINE])
    (by norm_num [DAYS_DOWN_BASELINE])
    (fun a b => ⟨by norm_num, by norm_num⟩) (by norm_num)
  exact ⟨by constructor <;> norm_num [DAYS_DOWN_BASELINE],
    by norm_num [DAYS_DOWN_BASELINE], by norm_num, h.1⟩

/-- C3: the code performs no configuration validation at all. With the
invalid probability 3/2 and the invalid range [90, 21] (min above max),
run_simulation draws all five requested trials and returns a full sample
instead of failing with InvalidConfiguration before sampling. -/
theorem invalid_config_still_sampled :
    ¬ Range.valid ⟨90, 21⟩ ∧ ¬ ((3:ℚ)/2 ≤ 1) ∧
    run_simulation (3/2) ⟨90, 21⟩ 5 (fun _ _ => 0) = [720, 720, 720, 720, 720] := by
  refine ⟨?_, by norm_num, ?_⟩
  · intro h
    have := h.2
    norm_num at this
  · norm_num [run_simulation, sim_trial, uniform, DAILY_IMPACT_RANGE, List.range_succ]

/-- C4: on a run in which no trial records a positive loss (here every
frequency draw is 0.9, above p = 0.67), the impact-only subsequence is
empty and the mean requested over it is numpy NaN (modelled none) — the
code raises no EmptySample error and substitutes no flagged sentinel. -/
theorem empty_impact_mean_nan :
    impactOnly (run_simulation PROB_ATTACK DAYS_DOWN_BASELINE 3 (fun _ _ => 9/10)) = [] ∧
    npMean (impactOnly
      (run_simulation PROB_ATTACK DAYS_DOWN_BASELINE 3 (fun _ _ => 9/10))) = none := by
  have h : impactOnly (run_simulation PROB_ATTACK DAYS_DOWN_BASELINE 3 (fun _ _ => 9/10)) = [] := by
    norm_num [run_simulation, sim_trial, uniform, PROB_ATTACK, DAYS_DOWN_BASELINE,
      impactOnly, List.range_succ]
  exact ⟨h, by rw [h]; rfl⟩

/-- C5 counterexample: with p = 0 and a frequency draw of exactly 0 (a
value np.random.random can return), the comparison 0 > 0 fails, the
attack branch runs, and the single trial records 168, so the sample is
not all zeros. -/
theorem p_zero_nonzero_sample :
    run_simulation 0 DAYS_DOWN_BASELINE 1 (fun _ _ => 0) = [168] ∧ (168:ℚ) ≠ 0 := by
  constructor
  · norm_num [run_simulation, sim_trial, uniform, DAYS_DOWN_BASELINE,
      DAILY_IMPACT_RANGE, List.range_succ]
  · norm_num

/-- C5 (amended): with p = 0, whenever every trial's frequency draw is
strictly positive (all draws except the measure-zero value 0), the sample
is all zeros, the impact-only subsequence is empty, and the mean over it
is the undefined numpy value (none), there being no EmptySample error in
the code. -/
theorem p_zero_all_zeros (dr : Range) (n : ℕ) (u : ℕ → ℕ → ℚ)
    (hu : ∀ i, 0 < u i 0) :
    run_simulation 0 dr n u = List.replicate n 0 ∧
    impactOnly (run_simulation 0 dr n u) = [] ∧
    npMean (impactOnly (run_simulation 0 dr n u)) = none := by
  have hz : run_simulation 0 dr n u = List.replicate n 0 := by
    rw [List.eq_replicate_iff]
    refine ⟨by simp [run_simulation], ?_⟩
    intro b hb
    rcases (mem_map_range _ n b).mp hb with ⟨i, _, hfx⟩
    rw [← hfx]
    unfold sim_trial
    rw [if_pos (hu i)]
  have hi : impactOnly (run_simulation 0 dr n u) = [] := by
    rw [hz]
    unfold impactOnly
    rw [List.filter_eq_nil_iff]
    intro a ha
    rcases List.mem_replicate.mp ha with ⟨_, rfl⟩
    simp
  exact ⟨hz, hi, by rw [hi]; rfl⟩

/-- Witness for the amended C5: two trials, every draw 1/2. -/
theorem p_zero_all_zeros_witness :
    (0:ℚ) < 1/2 ∧
    run_simulation 0 DAYS_DOWN_BASELINE 2 (fun _ _ => 1/2) = List.replicate 2 0 ∧
    impactOnly (run_simulation 0 DAYS_DOWN_BASELINE 2 (fun _ _ => 1/2)) = [] ∧
    npMean (impactOnly (run_simulation 0 DAYS_DOWN_BASELINE 2 (fun _ _ => 1/2))) = none := by
  have h := p_zero_all_zeros DAYS_DOWN_BASELINE 2 (fun _ _ => 1/2)
    (fun i => by norm_num)
  exact ⟨by norm_num, h.1, h.2.1, h.2.2⟩

/-- Bounds on a run_fair_simulation trial taken on the attack branch. -/
theorem fair_trial_bounds (p : ℚ) (dr : Range) (u : ℕ → ℚ)
    (hdr : dr.valid) (hu : ∀ j, 0 ≤ u j ∧ u j < 1)
    (hpos : 0 < fair_trial p dr u) :
    dr.lo * DAILY_LOSS_RANGE.lo ≤ fair_trial p dr u ∧
    fair_trial p dr u ≤
      dr.hi * DAILY_LOSS_RANGE.hi + RESPONSE_COST_RANGE.hi + SECONDARY_LOSS_RANGE.hi := by
  unfold fair_trial at hpos ⊢
  by_cases hatt : p < u 0
  · rw [if_pos hatt] at hpos
    exact absurd hpos (lt_irrefl 0)
  · rw [if_neg hatt] at hpos ⊢
    have hd_lo := uniform_lo_le dr (u 1) hdr (hu 1).1
    have hd_hi := uniform_le_hi dr (u 1) hdr (hu 1).2.le
    have hd_nn := uniform_nonneg dr (u 1) hdr (hu 1).1
    have hc_lo := uniform_lo_le DAILY_LOSS_RANGE (u 2) DAILY_LOSS_RANGE_valid (hu 2).1
    have hc_hi := uniform_le_hi DAILY_LOSS_RANGE (u 2) DAILY_LOSS_RANGE_valid (hu 2).2.le
    have hc_nn := uniform_nonneg DAILY_LOSS_RANGE (u 2) DAILY_LOSS_RANGE_valid (hu 2).1
    have hr_lo := uniform_lo_le RESPONSE_COST_RANGE (u 3) RESPONSE_COST_RANGE_valid (hu 3).1
    have hr_hi := uniform_le_hi RESPONSE_COST_RANGE (u 3) RESPONSE_COST_RANGE_valid (hu 3).2.le
    have hs_lo := uniform_lo_le SECONDARY_LOSS_RANGE (u 4) SECONDARY_LOSS_RANGE_valid (hu 4).1
    have hs_hi := uniform_le_hi SECONDARY_LOSS_RANGE (u 4) SECONDARY_LOSS_RANGE_valid (hu 4).2.le
    have hrlo : (0:ℚ) ≤ RESPONSE_COST_RANGE.lo := RESPONSE_COST_RANGE_valid.1
    have hslo : (0:ℚ) ≤ SECONDARY_LOSS_RANGE.lo := SECONDARY_LOSS_RANGE_valid.1
    have hdown_lo : dr.lo * DAILY_LOSS_RANGE.lo ≤ uniform dr (u 1) * uniform DAILY_LOSS_RANGE (u 2) :=
      mul_le_mul hd_lo hc_lo DAILY_LOSS_RANGE_valid.1 hd_nn
    have hdown_hi : uniform dr (u 1) * uniform DAILY_LOSS_RANGE (u 2) ≤ dr.hi * DAILY_LOSS_RANGE.hi :=
      mul_le_mul hd_hi hc_hi hc_nn (le_trans hdr.1 hdr.2)
    constructor <;> linarith

/-- C7: every strictly positive recorded loss of run_fair_simulation lies
between the downtime-only minimum dMin * cMin (with cMin = 30 the
daily-loss range minimum) and the sum of all configured range maxima
dMax * cMax + response max + secondary max, for every valid days range
and draws in [0,1). -/
theorem fair_loss_in_bounds (p : ℚ) (dr : Range) (n : ℕ) (u : ℕ → ℕ → ℚ)
    (hdr : dr.valid) (hu : ∀ a b, 0 ≤ u a b ∧ u a b < 1) :
    ∀ x ∈ run_fair_simulation p dr n u, 0 < x →
      dr.lo * DAILY_LOSS_RANGE.lo ≤ x ∧
      x ≤ dr.hi * DAILY_LOSS_RANGE.hi + RESPONSE_COST_RANGE.hi + SECONDARY_LOSS_RANGE.hi := by
  intro x hx hpos
  rcases (mem_map_range _ n x).mp hx with ⟨i, _, hfx⟩
  rw [← hfx] at hpos ⊢
  exact fair_trial_bounds p dr (u i) hdr (fun j => hu i j) hpos

/-- Witness for C7 at the Ransomeware8 baseline preset, one trial, all
draws 0, recording the loss 15 * 30 + 25 + 50 = 525. -/
theorem fair_loss_in_bounds_witness :
    DAYS_DOWN_BASELINE_8.valid ∧
    (525:ℚ) ∈ run_fair_simulation PROB_ATTACK_BASELINE DAYS_DOWN_BASELINE_8 1 (fun _ _ => 0) ∧
    (0:ℚ) < 525 ∧
    (DAYS_DOWN_BASELINE_8.lo * DAILY_LOSS_RANGE.lo ≤ 525 ∧
      (525:ℚ) ≤ DAYS_DOWN_BASELINE_8.hi * DAILY_LOSS_RANGE.hi
        + RESPONSE_COST_RANGE.hi + SECONDARY_LOSS_RANGE.hi) := by
  have hv : DAYS_DOWN_BASELINE_8.valid := by
    constructor <;> norm_num [DAYS_DOWN_BASELINE_8]
  have hrun : run_fair_simulation PROB_ATTACK_BASELINE DAYS_DOWN_BASELINE_8 1 (fun _ _ => 0)
      = [525] := by
    norm_num [run_fair_simulation, fair_trial, uniform, PROB_ATTACK_BASELINE,
      DAYS_DOWN_BASELINE_8, DAILY_LOSS_RANGE, RESPONSE_COST_RANGE,
      SECONDARY_LOSS_RANGE, List.range_succ]
  have hmem : (525:ℚ) ∈ run_fair_simulation PROB_ATTACK_BASELINE DAYS_DOWN_BASELINE_8 1
      (fun _ _ => 0) := by rw [hrun]; exact List.mem_singleton.mpr rfl
  exact ⟨hv, hmem, by norm_num,
    fair_loss_in_bounds PROB_ATTACK_BASELINE DAYS_DOWN_BASELINE_8 1 (fun _ _ => 0) hv
      (fun a b => ⟨le_refl 0, by norm_num⟩) 525 hmem (by norm_num)⟩

/-- C8: benefit is the difference of the two sample means and rosi is
((benefit - INVESTMENT_COST) / INVESTMENT_COST) * 100; at the claimed
concrete values mean(baseline) = 400, mean(mitigated) = 100 and the
configured cost 15 this gives benefit 300 and 1900 percent. -/
theorem rosi_formula (b m : List ℚ) (hb : mean b = 400) (hm : mean m = 100) :
    roi_reduction (mean b) (mean m) = 300 ∧
    rosi (roi_reduction (mean b) (mean m))
      = ((300 - INVESTMENT_COST) / INVESTMENT_COST) * 100 ∧
    rosi (roi_reduction (mean b) (mean m)) = 1900 := by
  rw [hb, hm]
  norm_num [roi_reduction, rosi, INVESTMENT_COST]

/-- Witness for C8 on the one-element samples [400] and [100]. -/
theorem rosi_formula_witness :
    mean [(400:ℚ)] = 400 ∧ mean [(100:ℚ)] = 100 ∧
    roi_reduction (mean [(400:ℚ)]) (mean [(100:ℚ)]) = 300 ∧
    rosi (roi_reduction (mean [(400:ℚ)]) (mean [(100:ℚ)])) = 1900 := by
  have hb : mean [(400:ℚ)] = 400 := by norm_num [mean]
  have hm : mean [(100:ℚ)] = 100 := by norm_num [mean]
  have h := rosi_formula [(400:ℚ)] [(100:ℚ)] hb hm
  exact ⟨hb, hm, h.1, h.2.2⟩

/-- C10: when the input sample has no strictly positive value, plot_lec
hits the early return: it produces no curve points (and, being a total
function of the sample, raises no error). -/
theorem plot_lec_no_positive (losses : List ℚ) (h : ∀ x ∈ losses, x ≤ 0) :
    plot_lec losses = [] := by
  unfold plot_lec
  have hf : (List.insertionSort (· ≤ ·) losses).filter (fun x => decide (0 < x)) = [] := by
    rw [List.filter_eq_nil_iff]
    intro a ha
    have hal : a ∈ losses := (List.perm_insertionSort (· ≤ ·) losses).mem_iff.mp ha
    simpa using not_lt.mpr (h a hal)
  simp [hf]

/-- Witness for C10 on the all-zero sample [0, 0]. -/
theorem plot_lec_no_positive_witness :
    (∀ x ∈ [(0:ℚ), 0], x ≤ 0) ∧ plot_lec [(0:ℚ), 0] = [] := by
  have h : ∀ x ∈ [(0:ℚ), 0], x ≤ 0 := by
    intro x hx
    rcases List.mem_cons.mp hx with h1 | h2
    · exact le_of_eq h1
    · simp only [List.mem_singleton] at h2
      exact le_of_eq h2
  exact ⟨h, plot_lec_no_positive _ h⟩

/-- Zero-loss trials contribute nothing: the sum of the impact-only
subsequence equals the sum of the full non-negative sample. -/
theorem sum_impactOnly (l : List ℚ) (hnn : ∀ x ∈ l, 0 ≤ x) :
    (impactOnly l).sum = l.sum := by
  induction l with
  | nil => rfl
  | cons a t ih =>
    have hnn_t : ∀ x ∈ t, 0 ≤ x := fun x hx => hnn x (List.mem_cons_of_mem a hx)
    unfold impactOnly at ih ⊢
    by_cases ha : 0 < a
    · rw [List.filter_cons_of_pos (by simpa using ha)]
      simp [ih hnn_t]
    · have ha0 : a = 0 := le_antisymm (not_lt.mp ha) (hnn a (List.mem_cons_self a t))
      rw [List.filter_cons_of_neg (by simpa using ha)]
      simp [ih hnn_t, ha0]

/-- C9 counterexample: with p = 1/2 (not 1) and the single frequency draw
0, the sample is [168], its impact-only subsequence is also [168], and the
two means are equal although p is not 1. -/
theorem equal_means_without_p_one :
    ((1:ℚ)/2) ≠ 1 ∧
    mean (impactOnly (run_simulation (1/2) DAYS_DOWN_BASELINE 1 (fun _ _ => 0))) =
      mean (run_simulation (1/2) DAYS_DOWN_BASELINE 1 (fun _ _ => 0)) := by
  constructor
  · norm_num
  · have h : run_simulation (1/2) DAYS_DOWN_BASELINE 1 (fun _ _ => 0) = [168] := by
      norm_num [run_simulation, sim_trial, uniform, DAYS_DOWN_BASELINE,
        DAILY_IMPACT_RANGE, List.range_succ]
    rw [h]
    norm_num [impactOnly, mean]

/-- C9 (amended): for every non-negative loss sample whose impact-only
subsequence is nonempty, the impact-only mean is at least the full-sample
mean, with equality exactly when the sample contains no zero-loss trial
(every trial's attack occurred) — a condition guaranteed by p = 1 but also
reachable for p below 1 on draw sequences with every frequency draw at or
below p. -/
theorem impact_mean_ge_mean (l : List ℚ) (hnn : ∀ x ∈ l, 0 ≤ x)
    (hne : impactOnly l ≠ []) :
    mean l ≤ mean (impactOnly l) ∧
    (mean (impactOnly l) = mean l ↔ ∀ x ∈ l, 0 < x) := by
  have himp_pos : ∀ x ∈ impactOnly l, 0 < x := by
    intro x hx
    have hm := List.mem_filter.mp hx
    exact of_decide_eq_true hm.2
  have hS_eq : (impactOnly l).sum = l.sum := sum_impactOnly l hnn
  have hSpos : 0 < l.sum := hS_eq ▸ List.sum_pos _ himp_pos hne
  have hk : 0 < (impactOnly l).length := List.length_pos.mpr hne
  have hkn : (impactOnly l).length ≤ l.length := List.length_filter_le _ l
  have hn : 0 < l.length := lt_of_lt_of_le hk hkn
  have hkQ : (0:ℚ) < ((impactOnly l).length : ℚ) := by exact_mod_cast hk
  have hnQ : (0:ℚ) < (l.length : ℚ) := by exact_mod_cast hn
  have hknQ : (((impactOnly l).length : ℕ) : ℚ) ≤ ((l.length : ℕ) : ℚ) := by
    exact_mod_cast hkn
  constructor
  · unfold mean
    rw [hS_eq]
    exact (div_le_div_iff_of_pos_left hSpos hnQ hkQ).mpr hknQ
  · constructor
    · intro heq
      unfold mean at heq
      rw [hS_eq] at heq
      have hmul : l.sum * (l.length : ℚ) = l.sum * ((impactOnly l).length : ℚ) :=
        (div_eq_div_iff (ne_of_gt hkQ) (ne_of_gt hnQ)).mp heq
      have hlen : ((l.length : ℕ) : ℚ) = (((impactOnly l).length : ℕ) : ℚ) :=
        mul_left_cancel₀ (ne_of_gt hSpos) hmul
      have hlenN : (impactOnly l).length = l.length := by exact_mod_cast hlen.symm
      have hfe : impactOnly l = l := (List.filter_sublist l).eq_of_length hlenN
      intro x hx
      exact himp_pos x (by rw [hfe]; exact hx)
    · intro hall
      have hfe : impactOnly l = l :=
        List.filter_eq_self.mpr (fun a ha => decide_eq_true (hall a ha))
      rw [hfe]

/-- Witness for the amended C9 on the sample [0, 2]: the impact-only mean
2 exceeds the full mean 1, and equality fails exactly as 0 is a member. -/
theorem impact_mean_ge_mean_witness :
    (∀ x ∈ [(0:ℚ), 2], 0 ≤ x) ∧ impactOnly [(0:ℚ), 2] ≠ [] ∧
    (mean [(0:ℚ), 2] ≤ mean (impactOnly [(0:ℚ), 2]) ∧
      (mean (impactOnly [(0:ℚ), 2]) = mean [(0:ℚ), 2] ↔ ∀ x ∈ [(0:ℚ), 2], 0 < x)) := by
  have hnn : ∀ x ∈ [(0:ℚ), 2], 0 ≤ x := by
    intro x hx
    rcases List.mem_cons.mp hx with h1 | h2
    · exact le_of_eq h1.symm
    · simp only [List.mem_singleton] at h2
      norm_num [h2]
  have hne : impactOnly [(0:ℚ), 2] ≠ [] := by
    norm_num [impactOnly]
  exact ⟨hnn, hne, impact_mean_ge_mean [(0:ℚ), 2] hnn hne⟩

/-- In a sorted duplicate-free list, the values at or above the i-th entry
are exactly the entries from position i on. -/
theorem countP_ge_sorted (l : List ℚ) (hs : l.Sorted (· ≤ ·)) (hn : l.Nodup) :
    ∀ (i : ℕ) (hi : i < l.length),
      l.countP (fun x => decide (l.get ⟨i, hi⟩ ≤ x)) = l.length - i := by
  induction l with
  | nil => intro i hi; simp at hi
  | cons a t ih =>
    intro i hi
    rcases List.sorted_cons.mp hs with ⟨ha, hst⟩
    rcases List.nodup_cons.mp hn with ⟨hna, hnt⟩
    cases i with
    | zero =>
      have hget : (a :: t).get ⟨0, hi⟩ = a := rfl
      rw [hget, List.countP_cons]
      have h2 : t.countP (fun x => decide (a ≤ x)) = t.length :=
        List.countP_eq_length.mpr (fun x hx => decide_eq_true (ha x hx))
      simp [h2]
    | succ j =>
      have hj : j < t.length := Nat.lt_of_succ_lt_succ hi
      have hget : (a :: t).get ⟨j + 1, hi⟩ = t.get ⟨j, hj⟩ := rfl
      rw [hget, List.countP_cons]
      have hv : a < t.get ⟨j, hj⟩ := by
        have hle : a ≤ t.get ⟨j, hj⟩ := ha _ (t.get_mem _ _)
        have hne : a ≠ t.get ⟨j, hj⟩ := fun he => hna (he ▸ t.get_mem _ _)
        exact lt_of_le_of_ne hle hne
      have hcond : (decide (t.get ⟨j, hj⟩ ≤ a)) = false :=
        decide_eq_false (not_le.mpr hv)
      rw [hcond]
      simp only [if_neg Bool.false_ne_true, Nat.add_zero]
      rw [ih hst hnt j hj]
      simp [Nat.succ_sub_succ]

/-- C6 counterexample: on the tied sample [5, 5] plot_lec emits the point
(5, 1/2), yet the fraction of all trials whose loss is at least 5 is 1,
so the claim as stated fails on samples with duplicated positive losses. -/
theorem lec_tie_wrong_fraction :
    ((5:ℚ), (1:ℚ)/2) ∈ plot_lec [5, 5] ∧
    ((List.countP (fun x => decide ((5:ℚ) ≤ x)) [5, 5] : ℕ) : ℚ)
      / (([(5:ℚ), 5].length : ℕ) : ℚ) = 1 ∧
    ((1:ℚ)/2) ≠ 1 := by
  refine ⟨?_, ?_, by norm_num⟩
  · have h : plot_lec [(5:ℚ), 5] = [(5, 1), (5, 1/2)] := by
      norm_num [plot_lec, List.insertionSort, List.orderedInsert, List.range_succ]
    rw [h]
    exact List.mem_cons_of_mem _ (List.mem_singleton.mpr rfl)
  · have hc : List.countP (fun x => decide ((5:ℚ) ≤ x)) [5, 5] = 2 := by
      rw [List.countP_cons, List.countP_cons]
      norm_num
    rw [hc]
    norm_num

/-- C6 (amended): whenever the strictly positive losses in the sample are
pairwise distinct (almost surely the case for continuous draws), every
point (v, y) emitted by plot_lec satisfies
y = (number of trials with loss at least v) / N, where N is the FULL trial
count (zero-loss trials included), never the impact-only count. -/
theorem plot_lec_fraction (losses : List ℚ)
    (hnd : (impactOnly losses).Nodup) :
    ∀ q ∈ plot_lec losses,
      q.2 = ((losses.countP (fun x => decide (q.1 ≤ x)) : ℕ) : ℚ)
        / ((losses.length : ℕ) : ℚ) := by
  intro q hq
  unfold plot_lec at hq
  simp only at hq
  by_cases hlen :
      ((List.insertionSort (· ≤ ·) losses).filter fun x => decide (0 < x)).length = 0
  · rw [if_pos hlen] at hq
    simp at hq
  · rw [if_neg hlen] at hq
    rcases List.mem_map.mp hq with ⟨i, hir, hqe⟩
    have hi : i < ((List.insertionSort (· ≤ ·) losses).filter
        fun x => decide (0 < x)).length := List.mem_range.mp hir
    have hperm : List.Perm (List.insertionSort (· ≤ ·) losses) losses :=
      List.perm_insertionSort _ losses
    have hpos_perm : List.Perm ((List.insertionSort (· ≤ ·) losses).filter
        fun x => decide (0 < x)) (impactOnly losses) := hperm.filter _
    have hnd_pos : ((List.insertionSort (· ≤ ·) losses).filter
        fun x => decide (0 < x)).Nodup := hpos_perm.symm.nodup hnd
    have hsorted : ((List.insertionSort (· ≤ ·) losses).filter
        fun x => decide (0 < x)).Sorted (· ≤ ·) :=
      List.Sorted.filter _ (List.sorted_insertionSort _ losses)
    set pos := (List.insertionSort (· ≤ ·) losses).filter fun x => decide (0 < x)
      with hpos_def
    have hgetD : pos.getD i 0 = pos.get ⟨i, hi⟩ := by
      rw [List.getD_eq_getElem _ _ hi]
      simp [List.get_eq_getElem]
    rw [hgetD] at hqe
    have hq1 : q.1 = pos.get ⟨i, hi⟩ := by rw [← hqe]
    have hq2 : q.2 = ((pos.length - i : ℕ) : ℚ) / ((losses.length : ℕ) : ℚ) := by
      rw [← hqe]
    have hvmem : pos.get ⟨i, hi⟩ ∈ pos := pos.get_mem _ _
    have hvpos : (0:ℚ) < pos.get ⟨i, hi⟩ :=
      of_decide_eq_true (List.mem_filter.mp hvmem).2
    have hcount_pos : pos.countP (fun x => decide (pos.get ⟨i, hi⟩ ≤ x)) =
        pos.length - i := countP_ge_sorted pos hsorted hnd_pos i hi
    generalize hv_eq : pos.get ⟨i, hi⟩ = v at hq1 hvpos hcount_pos
    have hcount_sort : (List.insertionSort (· ≤ ·) losses).countP
        (fun x => decide (v ≤ x)) =
        losses.countP (fun x => decide (v ≤ x)) :=
      hperm.countP_eq _
    have hcount_filter : pos.countP (fun x => decide (v ≤ x)) =
        (List.insertionSort (· ≤ ·) losses).countP
          (fun x => decide (v ≤ x)) := by
      rw [hpos_def, List.countP_filter]
      refine List.countP_congr ?_
      intro x hx
      constructor
      · intro hb
        exact (Bool.and_eq_true _ _).mp hb |>.1
      · intro hb
        refine (Bool.and_eq_true _ _).mpr ⟨hb, ?_⟩
        exact decide_eq_true (lt_of_lt_of_le hvpos (of_decide_eq_true hb))
    rw [hq2, hq1, ← hcount_sort, ← hcount_filter, hcount_pos]

/-- Witness for the amended C6 on the sample [0, 3, 7, 0]: the point
(3, 1/2) satisfies 1/2 = 2/4, two of the four trials having loss at
least 3. -/
theorem plot_lec_fraction_witness :
    (impactOnly [(0:ℚ), 3, 7, 0]).Nodup ∧
    ((3:ℚ), (1:ℚ)/2) ∈ plot_lec [0, 3, 7, 0] ∧
    ((1:ℚ)/2) = ((List.countP (fun x => decide ((3:ℚ) ≤ x)) [0, 3, 7, 0] : ℕ) : ℚ)
      / (([(0:ℚ), 3, 7, 0].length : ℕ) : ℚ) := by
  have hnd : (impactOnly [(0:ℚ), 3, 7, 0]).Nodup := by
    have h : impactOnly [(0:ℚ), 3, 7, 0] = [3, 7] := by
      norm_num [impactOnly]
    rw [h]
    norm_num
  have hmem : ((3:ℚ), (1:ℚ)/2) ∈ plot_lec [0, 3, 7, 0] := by
    have h : plot_lec [(0:ℚ), 3, 7, 0] = [(3, 1/2), (7, 1/4)] := by
      norm_num [plot_lec, List.insertionSort, List.orderedInsert, List.range_succ]
    rw [h]
    exact List.mem_cons_self _ _
  exact ⟨hnd, hmem, plot_lec_fraction [0, 3, 7, 0] hnd ((3:ℚ), (1:ℚ)/2) hmem⟩
